import Mathlib

/-!
Verification of the gedcom-parser core: a shallow embedding of the line
grammar, the level-stack tree builder, the decoder registry and decode pass,
and the pointer-resolution pass, with theorems checking the specified
properties against this embedding.

Nodes live in an append-only heap (a list of records indexed by position),
mirroring the object graph the parser builds: children and resolved pointer
references are stored as heap indices.
-/

namespace Gedcom

/-- Whitespace class of the host regexes and of trim: space, tab, line
terminators, and the unicode space separators. -/
def jsIsSpace (c : Char) : Bool :=
  let n := c.toNat
  n == 0x20 || n == 0x09 || n == 0x0a || n == 0x0b || n == 0x0c || n == 0x0d ||
  n == 0xa0 || n == 0x1680 || (decide (0x2000 ≤ n) && decide (n ≤ 0x200a)) ||
  n == 0x2028 || n == 0x2029 || n == 0x202f || n == 0x205f || n == 0x3000 ||
  n == 0xfeff

/-- Line terminators, the characters a regex dot does not match. -/
def isLineTerm (c : Char) : Bool :=
  let n := c.toNat
  n == 0x0a || n == 0x0d || n == 0x2028 || n == 0x2029

def isDigitCh (c : Char) : Bool :=
  decide (48 ≤ c.toNat) && decide (c.toNat ≤ 57)

def isUpperAZ (c : Char) : Bool :=
  decide (65 ≤ c.toNat) && decide (c.toNat ≤ 90)

def isLowerAZ (c : Char) : Bool :=
  decide (97 ≤ c.toNat) && decide (c.toNat ≤ 122)

/-- Character class of a tag token in the line grammar. -/
def isTagChar (c : Char) : Bool :=
  isUpperAZ c || isLowerAZ c || isDigitCh c || c == '_' || c == '@'

def jsTrimList (cs : List Char) : List Char :=
  ((cs.dropWhile jsIsSpace).reverse.dropWhile jsIsSpace).reverse

/-- Host-style trim of both ends of a string. -/
def jsTrim (s : String) : String := String.mk (jsTrimList s.toList)

/-- The pointer-id test used by the decode and resolution passes: a full-string
match of at-sign, one or more non-terminator characters, at-sign. -/
def pointerShaped (s : String) : Bool :=
  match s.toList with
  | '@' :: rest =>
    match rest.getLast? with
    | some '@' =>
      let mid := rest.dropLast
      !mid.isEmpty && mid.all (fun c => !(isLineTerm c))
    | _ => false
  | _ => false

def natOfDigits (cs : List Char) : Nat :=
  cs.foldl (fun a c => a * 10 + (c.toNat - 48)) 0

/-- Split on single newline characters, keeping empty pieces. -/
def splitOnNlGo : List Char → List Char → List String
  | [], acc => [String.mk acc.reverse]
  | '\n' :: cs, acc => String.mk acc.reverse :: splitOnNlGo cs []
  | c :: cs, acc => splitOnNlGo cs (c :: acc)

def splitOnNl (cs : List Char) : List String := splitOnNlGo cs []

/-- Split on runs of whitespace, as the host splits with a one-or-more
whitespace pattern: a leading or trailing run yields an empty piece. The
second argument holds the token accumulated so far, or none while inside a
separator run. -/
def jsSplitGo : List Char → Option (List Char) → List String
  | [], none => [""]
  | [], some acc => [String.mk acc.reverse]
  | c :: cs, some acc =>
    if jsIsSpace c then String.mk acc.reverse :: jsSplitGo cs none
    else jsSplitGo cs (some (c :: acc))
  | c :: cs, none =>
    if jsIsSpace c then jsSplitGo cs none else jsSplitGo cs (some [c])

def jsSplitWs (s : String) : List String := jsSplitGo s.toList (some [])

/-- Match the tag-and-value tail of the line pattern: a nonempty run of tag
characters, optionally followed by one whitespace character and the verbatim
remainder, which a dot-star can span only when it holds no line terminator. -/
def matchTail (rest : List Char) : Option (String × Option String) :=
  let tagCs := rest.takeWhile isTagChar
  let rest2 := rest.dropWhile isTagChar
  if tagCs.isEmpty then none
  else
    match rest2 with
    | [] => some (String.mk tagCs, none)
    | c :: cs =>
      if jsIsSpace c && cs.all (fun d => !(isLineTerm d)) then
        some (String.mk tagCs, some (String.mk cs))
      else none

/-- Match the full line pattern: level digits, whitespace, an optional
at-delimited pointer followed by whitespace, then the tag tail. When the
pointer alternative fails the match falls back to reading a tag directly,
as regex backtracking does. -/
def matchLine (cs : List Char) : Option (String × Option String × String × Option String) :=
  let digits := cs.takeWhile isDigitCh
  let r1 := cs.dropWhile isDigitCh
  if digits.isEmpty then none
  else
    let ws := r1.takeWhile jsIsSpace
    let r2 := r1.dropWhile jsIsSpace
    if ws.isEmpty then none
    else
      let viaPtr : Option (String × String × Option String) :=
        match r2 with
        | '@' :: r3 =>
          let inner := r3.takeWhile (fun c => c != '@')
          match r3.dropWhile (fun c => c != '@') with
          | '@' :: r5 =>
            if inner.isEmpty then none
            else if (r5.takeWhile jsIsSpace).isEmpty then none
            else
              match matchTail (r5.dropWhile jsIsSpace) with
              | some (t, v) => some (String.mk ('@' :: (inner ++ ['@'])), t, v)
              | none => none
          | _ => none
        | _ => none
      match viaPtr with
      | some (p, t, v) => some (String.mk digits, some p, t, v)
      | none =>
        match matchTail r2 with
        | some (t, v) => some (String.mk digits, none, t, v)
        | none => none

/-- One parsed line: blank input, a parse-error marker carrying the raw text,
or a structured record. -/
inductive Parsed where
  | blank
  | invalid (raw : String)
  | record (level : Nat) (pointer : Option String) (tag : String)
      (value : Option String) (raw : String)
deriving Repr, DecidableEq

def joinSpace : List String → String
  | [] => ""
  | [s] => s
  | s :: rest => s ++ " " ++ joinSpace rest

/-- Parse one raw line: strip one trailing carriage return, skip pure
whitespace, try the line pattern, and on a match without a captured pointer
retry pointer recognition on whitespace-split tokens. -/
def parseLine (line0 : String) : Parsed :=
  let cs0 := line0.toList
  let cs := if cs0.getLast? == some '\r' then cs0.dropLast else cs0
  if (jsTrimList cs).isEmpty then .blank
  else
    match matchLine cs with
    | none => .invalid (String.mk cs)
    | some (digits, mPtr, tag, mVal) =>
      let level := natOfDigits digits.toList
      match mPtr with
      | some p => .record level (some p) tag mVal (String.mk cs)
      | none =>
        match (jsSplitWs (String.mk cs)).drop 1 with
        | t0 :: t1 :: rest =>
          let tl := t0.toList
          if !tl.isEmpty && tl.head? == some '@' && tl.getLast? == some '@' &&
              t1 != "" then
            let joined := joinSpace rest
            .record level (some t0) t1
              (if joined = "" then none else some joined) (String.mk cs)
          else .record level none tag mVal (String.mk cs)
        | _ => .record level none tag mVal (String.mk cs)

/-- A calendar date as the host date constructor normalizes its year, month
and day arguments. Month is zero-based. -/
structure JSDate where
  year : Nat
  month : Nat
  day : Nat
deriving Repr, DecidableEq

inductive DatePrecision where
  | year
  | month
  | day
deriving Repr, DecidableEq

/-- Decoded node values: plain strings, pointers with an optional resolved
heap reference, structured dates, and structured names. -/
inductive GedcomValue where
  | vString (s : String)
  | vPointer (pointer : String) (ref : Option Nat)
  | vDate (text : String) (parsed : Option JSDate) (precision : Option DatePrecision)
  | vName (display : String) (surname : Option String)
deriving Repr, DecidableEq

/-- A node of the forest. Children and parent are heap indices. The tag is
optional because feeding a parse-error marker constructs a node whose tag
field was never assigned. -/
structure PNode where
  tag : Option String
  id : Option String := none
  rawValue : Option String := none
  value : Option GedcomValue := none
  children : List Nat := []
  parent : Option Nat := none
deriving Repr, DecidableEq

def isLeapYear (y : Nat) : Bool :=
  y % 4 == 0 && (y % 100 != 0 || y % 400 == 0)

def daysInMonth (y m : Nat) : Nat :=
  if m = 1 then (if isLeapYear y then 29 else 28)
  else if m = 3 ∨ m = 5 ∨ m = 8 ∨ m = 10 then 30
  else 31

/-- Roll an overflowing day count forward through the months, as the host
date constructor does. -/
def normLoop : Nat → Nat → Nat → Nat → JSDate
  | 0, y, m, d => ⟨y, m, d⟩
  | fuel + 1, y, m, d =>
    if d ≤ daysInMonth y m then ⟨y, m, d⟩
    else if m = 11 then normLoop fuel (y + 1) 0 (d - 31)
    else normLoop fuel y (m + 1) (d - daysInMonth y m)

/-- The host date constructor on (year, zero-based month, day): years up to
99 mean 1900 plus the year, day zero means the last day of the previous
month, and larger days roll forward. -/
def jsMakeDate (y0 m d : Nat) : JSDate :=
  let y := if y0 ≤ 99 then y0 + 1900 else y0
  if d = 0 then
    if m = 0 then ⟨y - 1, 11, 31⟩ else ⟨y, m - 1, daysInMonth y (m - 1)⟩
  else normLoop 12 y m d

def monthNum (a b c : Char) : Option Nat :=
  let s := String.mk [a, b, c]
  if s = "JAN" then some 0
  else if s = "FEB" then some 1
  else if s = "MAR" then some 2
  else if s = "APR" then some 3
  else if s = "MAY" then some 4
  else if s = "JUN" then some 5
  else if s = "JUL" then some 6
  else if s = "AUG" then some 7
  else if s = "SEP" then some 8
  else if s = "OCT" then some 9
  else if s = "NOV" then some 10
  else if s = "DEC" then some 11
  else none

/-- Shape one of the date pattern: one or two digits, a space, three
uppercase letters, a space, four digits. -/
def matchDMY : List Char → Option (Nat × (Char × Char × Char) × Nat)
  | [d1, s1, a, b, c, s2, y1, y2, y3, y4] =>
    if isDigitCh d1 && s1 == ' ' && isUpperAZ a && isUpperAZ b && isUpperAZ c &&
        s2 == ' ' && isDigitCh y1 && isDigitCh y2 && isDigitCh y3 && isDigitCh y4 then
      some (natOfDigits [d1], (a, b, c), natOfDigits [y1, y2, y3, y4])
    else none
  | [d1, d2, s1, a, b, c, s2, y1, y2, y3, y4] =>
    if isDigitCh d1 && isDigitCh d2 && s1 == ' ' && isUpperAZ a && isUpperAZ b &&
        isUpperAZ c && s2 == ' ' && isDigitCh y1 && isDigitCh y2 && isDigitCh y3 &&
        isDigitCh y4 then
      some (natOfDigits [d1, d2], (a, b, c), natOfDigits [y1, y2, y3, y4])
    else none
  | _ => none

/-- Shape two of the date pattern: three uppercase letters, a space, four
digits. -/
def matchMY : List Char → Option ((Char × Char × Char) × Nat)
  | [a, b, c, s1, y1, y2, y3, y4] =>
    if isUpperAZ a && isUpperAZ b && isUpperAZ c && s1 == ' ' && isDigitCh y1 &&
        isDigitCh y2 && isDigitCh y3 && isDigitCh y4 then
      some ((a, b, c), natOfDigits [y1, y2, y3, y4])
    else none
  | _ => none

/-- Shape three of the date pattern: exactly four digits. -/
def matchY : List Char → Option Nat
  | [y1, y2, y3, y4] =>
    if isDigitCh y1 && isDigitCh y2 && isDigitCh y3 && isDigitCh y4 then
      some (natOfDigits [y1, y2, y3, y4])
    else none
  | _ => none

/-- The default date decoder: absent or empty raw text yields no value;
otherwise the trimmed text is matched against the three shapes in order,
and any other text keeps the trimmed text with no parsed value and no
precision. -/
def dateDecoder (rawValue : Option String) : Option GedcomValue :=
  match rawValue with
  | none => none
  | some rv =>
    if rv = "" then none
    else
      let text := jsTrim rv
      let cs := text.toList
      match matchDMY cs with
      | some (d, (a, b, c), y) =>
        match monthNum a b c with
        | some m => some (.vDate text (some (jsMakeDate y m d)) (some .day))
        | none => some (.vDate text none none)
      | none =>
        match matchMY cs with
        | some ((a, b, c), y) =>
          match monthNum a b c with
          | some m => some (.vDate text (some (jsMakeDate y m 1)) (some .month))
          | none => some (.vDate text none none)
        | none =>
          match matchY cs with
          | some y => some (.vDate text (some (jsMakeDate y 0 1)) (some .year))
          | none => some (.vDate text none none)

/-- Scan from just after an opening slash to the next slash, failing on a
line terminator, as the lazy dot-star of the surname pattern does. -/
def scanToSlash : List Char → List Char → Option String
  | [], _ => none
  | '/' :: _, acc => some (String.mk acc.reverse)
  | c :: rest, acc =>
    if isLineTerm c then none else scanToSlash rest (c :: acc)

/-- First match of the slash-delimited surname pattern anywhere in the
text. -/
def firstSlashPair : List Char → Option String
  | [] => none
  | '/' :: rest =>
    match scanToSlash rest [] with
    | some inner => some inner
    | none => firstSlashPair rest
  | _ :: rest => firstSlashPair rest

/-- The default name decoder: absent or empty raw text yields no value;
otherwise display is the text with every slash removed and then trimmed,
and surname is the first slash-delimited segment when one exists. -/
def nameDecoder (rawValue : Option String) : Option GedcomValue :=
  match rawValue with
  | none => none
  | some rv =>
    if rv = "" then none
    else
      let display := String.mk (jsTrimList ((rv.toList).filter (fun c => c != '/')))
      some (.vName display (firstSlashPair rv.toList))

/-- A decoder registry: a tag-keyed lookup of decoder functions over the raw
value of a node. -/
abbrev DecoderRegistry := String → Option (Option String → Option GedcomValue)

/-- The default registry registers the date decoder for DATE and the name
decoder for NAME. -/
def createDefaultRegistry : DecoderRegistry :=
  fun tag =>
    if tag = "DATE" then some dateDecoder
    else if tag = "NAME" then some nameDecoder
    else none

def regGet (registry : DecoderRegistry) : Option String → Option (Option String → Option GedcomValue)
  | some t => registry t
  | none => none

/-- Decode one node: nodes without raw text are untouched; a registered
decoder assigns its result; otherwise raw text whose trimmed form is
pointer-shaped becomes a pointer value keeping the untrimmed text as its id,
and any other raw text becomes a string value. -/
def decodeNode (registry : DecoderRegistry) (n : PNode) : PNode :=
  match n.rawValue with
  | none => n
  | some rv =>
    match regGet registry n.tag with
    | some decoder => { n with value := decoder (some rv) }
    | none =>
      if pointerShaped (jsTrim rv) then { n with value := some (.vPointer rv none) }
      else { n with value := some (.vString rv) }

def childrenOf (heap : List PNode) (i : Nat) : List Nat :=
  match heap.get? i with
  | some n => n.children
  | none => []

/-- All heap indices in the subtree rooted at an index, to a given depth
bound. The heap length bounds the depth of every well-formed heap. -/
def subtreeIds (heap : List PNode) : Nat → Nat → List Nat
  | 0, _ => []
  | fuel + 1, i => i :: (childrenOf heap i).flatMap (subtreeIds heap fuel)

def mapWithIndex (f : Nat → PNode → PNode) : Nat → List PNode → List PNode
  | _, [] => []
  | i, n :: ns => f i n :: mapWithIndex f (i + 1) ns

def decodeReach (heap : List PNode) (roots : List Nat) : List Nat :=
  roots.flatMap (subtreeIds heap heap.length)

/-- The decode pass: walk every tree of the forest and decode each visited
node. -/
def applyDecoders (registry : DecoderRegistry) (heap : List PNode) (roots : List Nat) :
    List PNode :=
  mapWithIndex
    (fun i n => if i ∈ decodeReach heap roots then decodeNode registry n else n) 0 heap

def idxLookup (byId : List (String × Nat)) (key : String) : Option Nat :=
  match byId with
  | [] => none
  | (k, v) :: rest => if k = key then some v else idxLookup rest key

def idxInsert (byId : List (String × Nat)) (key : String) (nid : Nat) :
    List (String × Nat) :=
  match byId with
  | [] => [(key, nid)]
  | (k, v) :: rest =>
    if k = key then (k, nid) :: rest else (k, v) :: idxInsert rest key nid

/-- Host truthiness of a possibly absent decoded value: absent and the empty
string are falsy, everything else here is truthy. -/
def jsTruthyVal : Option GedcomValue → Bool
  | none => false
  | some (.vString s) => s != ""
  | some _ => true

/-- Whether a decoded value is an object carrying a truthy pointer field. -/
def hasTruthyPointer : Option GedcomValue → Bool
  | some (.vPointer p _) => p != ""
  | _ => false

def jsTruthyStr : Option String → Bool
  | none => false
  | some s => s != ""

/-- First statement of the per-node resolution work: a value that is an
object with a truthy pointer field has its reference set from the index
when the id is present. -/
def resolveValueFirst (byId : List (String × Nat)) (v0 : Option GedcomValue) :
    Option GedcomValue :=
  match v0 with
  | some (.vPointer p r) =>
    if p ≠ "" then
      match idxLookup byId p with
      | some ref => some (.vPointer p (some ref))
      | none => some (.vPointer p r)
    else v0
  | _ => v0

/-- Second statement of the per-node resolution work: when the value is
still absent or truthy without a pointer field and the raw text is truthy
and trims to a pointer shape, a successful index lookup replaces the value
by a freshly built resolved pointer. -/
def resolveValueSecond (byId : List (String × Nat)) (v1 : Option GedcomValue)
    (rv : Option String) : Option GedcomValue :=
  if (v1.isNone || (jsTruthyVal v1 && !hasTruthyPointer v1)) && jsTruthyStr rv then
    if pointerShaped (jsTrim (rv.getD "")) then
      match idxLookup byId (jsTrim (rv.getD "")) with
      | some ref => some (.vPointer (jsTrim (rv.getD "")) (some ref))
      | none => v1
    else v1
  else v1

/-- The per-node work of the pointer-resolution pass on the decoded value:
the two statements of the loop body in order. -/
def resolveValue (byId : List (String × Nat)) (v0 : Option GedcomValue)
    (rv : Option String) : Option GedcomValue :=
  resolveValueSecond byId (resolveValueFirst byId v0) rv

def resolveStep (byId : List (String × Nat)) (n : PNode) : PNode :=
  { n with value := resolveValue byId n.value n.rawValue }

/-- The indices the pointer-resolution pass visits: every node in the
subtree of a node stored in the id index. -/
def visitedIds (heap : List PNode) (byId : List (String × Nat)) : List Nat :=
  byId.flatMap (fun kv => subtreeIds heap heap.length kv.2)

/-- The pointer-resolution pass: apply the per-node resolution to every
visited node and leave all other nodes untouched. -/
def resolvePointers (heap : List PNode) (byId : List (String × Nat)) : List PNode :=
  mapWithIndex
    (fun i n => if i ∈ visitedIds heap byId then resolveStep byId n else n) 0 heap

/-- The incremental builder state: the node heap, the top-level list, the
level-indexed stack of open nodes, and the id index. -/
structure ParserState where
  heap : List PNode := []
  roots : List Nat := []
  stack : List (Option Nat) := []
  byId : List (String × Nat) := []
deriving Repr, DecidableEq

/-- Read a stack slot, absent beyond the populated range as in a sparse
host array. -/
def arrGet (stack : List (Option Nat)) (i : Nat) : Option Nat :=
  match stack.get? i with
  | some v => v
  | none => none

/-- The stack after opening a node at a level: slots below the level keep
their values, the level slot holds the new node, and every higher slot is
cleared. -/
def stackAfter (stack : List (Option Nat)) (level : Nat) (nid : Nat) :
    List (Option Nat) :=
  ((List.range level).map (arrGet stack)) ++ [some nid]

def heapModify (heap : List PNode) (i : Nat) (f : PNode → PNode) : List PNode :=
  match heap, i with
  | [], _ => []
  | n :: ns, 0 => f n :: ns
  | n :: ns, j + 1 => n :: heapModify ns j f

/-- Coercion of a possibly absent raw text to a string under host string
concatenation: an absent value prints as the word undefined. -/
def jsStringOfRaw : Option String → String
  | none => "undefined"
  | some s => s

/-- Host string coercion of a decoded value under concatenation. -/
def jsStringOfValue : GedcomValue → String
  | .vString s => s
  | _ => "[object Object]"

/-- The text a continuation record appends: its value (defaulting to empty),
with a leading newline for the line-break tag. -/
def contAppend (tag : String) (value : Option String) : String :=
  let a := match value with | some v => v | none => ""
  if tag = "CONT" then "\n" ++ a else a

/-- Apply one continuation record to its target node: concatenate onto the
raw text, and onto the decoded value as well when one is present. -/
def applyCont (tag : String) (value : Option String) (n : PNode) : PNode :=
  let a := contAppend tag value
  let n1 := { n with rawValue := some (jsStringOfRaw n.rawValue ++ a) }
  match n1.value with
  | some v => { n1 with value := some (.vString (jsStringOfValue v ++ a)) }
  | none => n1

/-- Attach a freshly built node at a level: level zero and levels with no
open parent go to the top-level list, otherwise the node becomes the last
child of the open parent one level up; the stack is updated either way. -/
def attach (st : ParserState) (node : PNode) (level : Nat) : ParserState :=
  let nid := st.heap.length
  if level = 0 then
    { st with heap := st.heap ++ [node], roots := st.roots ++ [nid],
              stack := stackAfter st.stack 0 nid }
  else
    match arrGet st.stack (level - 1) with
    | some pid =>
      { st with
          heap := heapModify st.heap pid
              (fun p => { p with children := p.children ++ [nid] }) ++
            [{ node with parent := some pid }],
          stack := stackAfter st.stack level nid }
    | none =>
      { st with heap := st.heap ++ [node], roots := st.roots ++ [nid],
                stack := stackAfter st.stack level nid }

/-- Feed one parsed line into the builder. A parse-error marker is
destructured like a record: all its fields read as absent, so a node with an
unassigned tag is built and appended to the top-level list with the stack and
index untouched. Continuation records target the open node one level up;
other records build and attach a node, indexing it when it carries a
pointer id. -/
def feedParsed (st : ParserState) (p : Parsed) : ParserState :=
  match p with
  | .blank => st
  | .invalid _ =>
    { st with heap := st.heap ++ [{ tag := none }], roots := st.roots ++ [st.heap.length] }
  | .record level pointer tag value _ =>
    if (tag = "CONC" ∨ tag = "CONT") ∧ 0 < level then
      match arrGet st.stack (level - 1) with
      | some pid => { st with heap := heapModify st.heap pid (applyCont tag value) }
      | none => st
    else
      let node : PNode := { tag := some tag, rawValue := value }
      match pointer with
      | some ptr =>
        if ptr = "" then attach st node level
        else
          attach { st with byId := idxInsert st.byId ptr st.heap.length }
            { node with id := some ptr } level
      | none => attach st node level

def feed (st : ParserState) (rawLine : String) : ParserState :=
  feedParsed st (parseLine rawLine)

/-- The parse result: the heap, the top-level node indices and the id
index. -/
structure ParseResult where
  heap : List PNode
  nodes : List Nat
  byId : List (String × Nat)
deriving Repr, DecidableEq

/-- Finish a parse: run the decode pass over the forest and, when requested,
the pointer-resolution pass. -/
def finish (st : ParserState) (doResolve : Bool) : ParseResult :=
  let heap1 := applyDecoders createDefaultRegistry st.heap st.roots
  ⟨if doResolve then resolvePointers heap1 st.byId else heap1, st.roots, st.byId⟩

def stripBom (s : String) : String :=
  match s.toList with
  | c :: cs => if c.toNat = 0xfeff then String.mk cs else s
  | [] => s

/-- Synchronous entry point with default options: split the input into
lines, feed each and finish with pointer resolution on. -/
def parseGedcomSync (input : String) : ParseResult :=
  finish ((splitOnNl (stripBom input).toList).foldl feed {}) true

/-- All children of a node with a given tag whose decoded value carries a
resolved reference, mapped to those references. -/
def childrenReferences (heap : List PNode) (n : PNode) (tag : String) : List Nat :=
  (n.children.filterMap (fun cid => heap.get? cid)).filterMap
    (fun c =>
      if c.tag = some tag then
        match c.value with
        | some (.vPointer _ (some r)) => some r
        | _ => none
      else none)

/-- The resolved husband reference of a family node, when present. -/
def getHusband (heap : List PNode) (n : PNode) : Option Nat :=
  (childrenReferences heap n "HUSB").head?

/-- The resolved spouse-link family references of a person node. -/
def getFamilyGroupsAsSpouse (heap : List PNode) (n : PNode) : List Nat :=
  childrenReferences heap n "FAMS"

/-- Whether the raw text of a node is truthy, trims to a pointer shape and
resolves in the index: the condition under which the second branch of the
resolution pass can build a fresh pointer value for the node. -/
def rawResolvable (byId : List (String × Nat)) (n : PNode) : Bool :=
  jsTruthyStr n.rawValue && pointerShaped (jsTrim (n.rawValue.getD "")) &&
    (idxLookup byId (jsTrim (n.rawValue.getD ""))).isSome

/-- The five-line end-to-end input of the specification. -/
def c1Input : String :=
  "0 @I1@ INDI\n1 NAME John /Doe/\n1 FAMS @F1@\n0 @F1@ FAM\n1 HUSB @I1@"

/-- A forest whose first tree has no indexed node: a top-level record
without an id holding a child with an unresolved pointer value, next to an
indexed empty record the pointer names. -/
def c2Heap : List PNode :=
  [{ tag := some "ROOT", children := [1] },
   { tag := some "HUSB", rawValue := some "@X@",
     value := some (.vPointer "@X@" none), parent := some 0 },
   { tag := some "INDI", id := some "@X@" }]

def c2ById : List (String × Nat) := [("@X@", 2)]

/-- A forest whose indexed top-level record holds a date-tagged child whose
raw text is pointer-shaped and names the record itself. -/
def c3Heap : List PNode :=
  [{ tag := some "INDI", id := some "@A@", children := [1] },
   { tag := some "DATE", rawValue := some "@A@",
     value := some (.vDate "@A@" none none), parent := some 0 }]

def c3ById : List (String × Nat) := [("@A@", 0)]

/-- An indexed top-level record holding a spouse-link child with an
unresolved pointer value naming the record. -/
def c2wHeap : List PNode :=
  [{ tag := some "INDI", id := some "@B@", children := [1] },
   { tag := some "FAMS", rawValue := some "@B@",
     value := some (.vPointer "@B@" none), parent := some 0 }]

def c2wById : List (String × Nat) := [("@B@", 0)]

/-- The date-tagged node of the second tree before resolution. -/
def c3NodeBefore : PNode :=
  { tag := some "DATE", rawValue := some "@A@",
    value := some (.vDate "@A@" none none), parent := some 0 }

/-- The same node after resolution replaced its date value. -/
def c3NodeAfter : PNode :=
  { tag := some "DATE", rawValue := some "@A@",
    value := some (.vPointer "@A@" (some 0)), parent := some 0 }

/-- The single node of the untrimmed-pointer forest. -/
def c6Node : PNode := { tag := some "HUSB", rawValue := some " @I1@" }

/-- A one-node forest with a display-name tag. -/
def c8wNode : PNode := { tag := some "NAME", rawValue := some "John /Doe/" }

def c8wHeap : List PNode := [c8wNode]

/-- A one-node forest whose raw text has a leading space before a
pointer-shaped body and whose tag has no registered decoder. -/
def c6Heap : List PNode :=
  [{ tag := some "HUSB", rawValue := some " @I1@" }]

/-- A one-node forest with a given-name sub-tag. -/
def c8Heap : List PNode :=
  [{ tag := some "GIVN", rawValue := some "John /Doe/" }]

/-- A builder state with one open top-level node whose raw text is
present. -/
def c7State : ParserState :=
  { heap := [{ tag := some "NOTE", rawValue := some "base" }],
    roots := [0], stack := [some 0], byId := [] }

/-- A builder state with one open top-level node whose defining line
carried no value token. -/
def c10State : ParserState :=
  { heap := [{ tag := some "BIRT" }], roots := [0], stack := [some 0], byId := [] }

theorem mapWithIndex_get? (f : Nat → PNode → PNode) (k : Nat) (l : List PNode) (i : Nat) :
    (mapWithIndex f k l).get? i = (l.get? i).map (f (k + i)) := by
  induction l generalizing k i with
  | nil => simp [mapWithIndex]
  | cons n ns ih =>
    cases i with
    | zero => simp [mapWithIndex]
    | succ j =>
      simpa [mapWithIndex, Nat.add_comm, Nat.add_assoc, Nat.add_left_comm] using ih (k + 1) j

theorem mapWithIndex_length (f : Nat → PNode → PNode) (k : Nat) (l : List PNode) :
    (mapWithIndex f k l).length = l.length := by
  induction l generalizing k with
  | nil => rfl
  | cons n ns ih => simp [mapWithIndex, ih]

theorem resolvePointers_get? (heap : List PNode) (byId : List (String × Nat)) (i : Nat) :
    (resolvePointers heap byId).get? i =
      (heap.get? i).map
        (fun n => if i ∈ visitedIds heap byId then resolveStep byId n else n) := by
  simpa using mapWithIndex_get?
    (fun i n => if i ∈ visitedIds heap byId then resolveStep byId n else n) 0 heap i

theorem applyDecoders_get? (registry : DecoderRegistry) (heap : List PNode)
    (roots : List Nat) (i : Nat) :
    (applyDecoders registry heap roots).get? i =
      (heap.get? i).map
        (fun n => if i ∈ decodeReach heap roots then decodeNode registry n else n) := by
  simpa using mapWithIndex_get?
    (fun i n => if i ∈ decodeReach heap roots then decodeNode registry n else n) 0 heap i

theorem heapModify_get?_self (heap : List PNode) (i : Nat) (f : PNode → PNode) :
    (heapModify heap i f).get? i = (heap.get? i).map f := by
  induction heap generalizing i with
  | nil => simp [heapModify]
  | cons n ns ih =>
    cases i with
    | zero => simp [heapModify]
    | succ j => simpa [heapModify] using ih j

theorem applyCont_rawValue (tag : String) (value : Option String) (n : PNode) :
    (applyCont tag value n).rawValue =
      some (jsStringOfRaw n.rawValue ++ contAppend tag value) := by
  unfold applyCont
  cases n.value <;> rfl

/-- C1: parsing the five-line sample with default options yields exactly the
top-level person node (index 0, id at-I1-at) followed by the family node
(index 3, id at-F1-at); the husband helper of the family resolves to the
person and the spouse-link helper of the person resolves to the family. -/
theorem c1_end_to_end :
    (parseGedcomSync c1Input).nodes = [0, 3] ∧
    ((parseGedcomSync c1Input).heap.get? 0).map PNode.tag = some (some "INDI") ∧
    ((parseGedcomSync c1Input).heap.get? 0).map PNode.id = some (some "@I1@") ∧
    ((parseGedcomSync c1Input).heap.get? 3).map PNode.tag = some (some "FAM") ∧
    ((parseGedcomSync c1Input).heap.get? 3).map PNode.id = some (some "@F1@") ∧
    ((parseGedcomSync c1Input).heap.get? 3).map
      (fun fam => getHusband (parseGedcomSync c1Input).heap fam) = some (some 0) ∧
    ((parseGedcomSync c1Input).heap.get? 0).map
      (fun indi => getFamilyGroupsAsSpouse (parseGedcomSync c1Input).heap indi) =
      some [3] := by
  decide

/-- C4: a line failing the grammar yields a parse-error marker rather than a
throw, but feeding the marker is not a skip: the builder appends a node with
an unassigned tag to the top-level list (the stack and index stay
unchanged), diverging from the specified permissive behavior. -/
theorem c4_invalid_line_adds_root_node :
    parseLine "ABC" = .invalid "ABC" ∧
    feed {} "ABC" =
      { heap := [{ tag := none }], roots := [0], stack := [], byId := [] } := by
  decide

/-- C2 counterexample: node 1 holds an unresolved pointer value whose id is
in the index, yet the pass leaves it unresolved because no node of its tree
is indexed: resolution traverses only subtrees of indexed nodes. -/
theorem c2_resolution_skips_unindexed_trees :
    ((c2Heap.get? 1).map PNode.value = some (some (.vPointer "@X@" none))) ∧
    idxLookup c2ById "@X@" = some 2 ∧
    ((resolvePointers c2Heap c2ById).get? 1).map PNode.value =
      some (some (.vPointer "@X@" none)) := by
  decide

/-- C3 counterexample: node 1 enters resolution with a decoded date value,
and because its raw text is pointer-shaped and resolvable the pass replaces
the date value by a fresh pointer value: the decoded value is reassigned. -/
theorem c3_date_value_replaced :
    ((c3Heap.get? 1).map PNode.value = some (some (.vDate "@A@" none none))) ∧
    ((resolvePointers c3Heap c3ById).get? 1).map PNode.value =
      some (some (.vPointer "@A@" (some 0))) := by
  decide

/-- C5 counterexample: a lowercase month abbreviation is not recognized, so
the two casings do not parse the same: the uppercase form has day precision
and the lowercase form has no parsed value and no precision. -/
theorem c5_lowercase_month_not_parsed :
    dateDecoder (some "12 mar 1925") = some (.vDate "12 mar 1925" none none) ∧
    dateDecoder (some "12 MAR 1925") =
      some (.vDate "12 MAR 1925" (some ⟨1925, 2, 12⟩) (some .day)) ∧
    dateDecoder (some "12 mar 1925") ≠ dateDecoder (some "12 MAR 1925") := by
  decide

/-- C6 counterexample: raw text with a leading space trims to a pointer
shape, and the decode pass stores the untrimmed raw text as the pointer id,
not the trimmed text the claim names. -/
theorem c6_pointer_id_untrimmed :
    pointerShaped (jsTrim " @I1@") = true ∧
    ((applyDecoders createDefaultRegistry c6Heap [0]).get? 0).map PNode.value =
      some (some (.vPointer " @I1@" none)) ∧
    (" @I1@" : String) ≠ "@I1@" := by
  decide

/-- C8 counterexample: under the default registry a given-name sub-tag node
with non-empty raw text decodes to a plain string value, not to a name
value, because the default registry registers no decoder for it. -/
theorem c8_givn_not_name_decoded :
    (createDefaultRegistry "GIVN").isNone = true ∧
    ((applyDecoders createDefaultRegistry c8Heap [0]).get? 0).map PNode.value =
      some (some (.vString "John /Doe/")) := by
  decide

/-- C7: with a node open at one level up holding accumulated raw text, a
line-break continuation followed by a line-join continuation leave the raw
text equal to the original, a single newline, the break value, and the join
value with no further separator. -/
theorem c7_break_then_join (st : ParserState) (L pid : Nat) (n : PNode)
    (s b j raw1 raw2 : String)
    (hL : 0 < L) (hstk : arrGet st.stack (L - 1) = some pid)
    (hn : st.heap.get? pid = some n) (hraw : n.rawValue = some s) :
    ∃ n', (feedParsed (feedParsed st (.record L none "CONT" (some b) raw1))
        (.record L none "CONC" (some j) raw2)).heap.get? pid = some n' ∧
      n'.rawValue = some (s ++ "\n" ++ b ++ j) := by
  have h1 : feedParsed st (.record L none "CONT" (some b) raw1) =
      { st with heap := heapModify st.heap pid (applyCont "CONT" (some b)) } := by
    simp [feedParsed, hL, hstk]
  have h2 : feedParsed
      { st with heap := heapModify st.heap pid (applyCont "CONT" (some b)) }
      (.record L none "CONC" (some j) raw2) =
      { st with heap :=
          (heapModify (heapModify st.heap pid (applyCont "CONT" (some b))) pid
            (applyCont "CONC" (some j))) } := by
    simp [feedParsed, hL, hstk]
  rw [h1, h2]
  refine ⟨applyCont "CONC" (some j) (applyCont "CONT" (some b) n), ?_, ?_⟩
  · rw [heapModify_get?_self, heapModify_get?_self, hn]; rfl
  · simp [applyCont_rawValue, hraw, jsStringOfRaw, contAppend, String.append_assoc]

/-- Witness for C7 at a concrete builder state. -/
theorem c7_break_then_join_witness :
    ∃ n', (feedParsed (feedParsed c7State (.record 1 none "CONT" (some "bb") "x"))
        (.record 1 none "CONC" (some "jj") "y")).heap.get? 0 = some n' ∧
      n'.rawValue = some ("base" ++ "\n" ++ "bb" ++ "jj") :=
  c7_break_then_join c7State 1 0 { tag := some "NOTE", rawValue := some "base" }
    "base" "bb" "jj" "x" "y" (by decide) (by decide) (by decide) (by decide)

/-- C10: a continuation targeting an open node whose raw text is absent
coerces the absent text to the word undefined: a join leaves undefined
followed by its value, a break leaves undefined, a newline, then its
value. -/
theorem c10_undefined_coercion (st : ParserState) (L pid : Nat) (n : PNode)
    (b j raw1 raw2 : String)
    (hL : 0 < L) (hstk : arrGet st.stack (L - 1) = some pid)
    (hn : st.heap.get? pid = some n) (hraw : n.rawValue = none) :
    (∃ n', (feedParsed st (.record L none "CONC" (some j) raw1)).heap.get? pid =
        some n' ∧ n'.rawValue = some ("undefined" ++ j)) ∧
    (∃ n', (feedParsed st (.record L none "CONT" (some b) raw2)).heap.get? pid =
        some n' ∧ n'.rawValue = some ("undefined" ++ "\n" ++ b)) := by
  constructor
  · have h1 : feedParsed st (.record L none "CONC" (some j) raw1) =
        { st with heap := heapModify st.heap pid (applyCont "CONC" (some j)) } := by
      simp [feedParsed, hL, hstk]
    rw [h1]
    refine ⟨applyCont "CONC" (some j) n, ?_, ?_⟩
    · rw [heapModify_get?_self, hn]; rfl
    · simp [applyCont_rawValue, hraw, jsStringOfRaw, contAppend]
  · have h1 : feedParsed st (.record L none "CONT" (some b) raw2) =
        { st with heap := heapModify st.heap pid (applyCont "CONT" (some b)) } := by
      simp [feedParsed, hL, hstk]
    rw [h1]
    refine ⟨applyCont "CONT" (some b) n, ?_, ?_⟩
    · rw [heapModify_get?_self, hn]; rfl
    · simp only [applyCont_rawValue, hraw, jsStringOfRaw, contAppend]
      rfl

/-- Witness for C10 at a concrete builder state. -/
theorem c10_undefined_coercion_witness :
    (∃ n', (feedParsed c10State (.record 1 none "CONC" (some "jj") "x")).heap.get? 0 =
        some n' ∧ n'.rawValue = some ("undefined" ++ "jj")) ∧
    (∃ n', (feedParsed c10State (.record 1 none "CONT" (some "bb") "y")).heap.get? 0 =
        some n' ∧ n'.rawValue = some ("undefined" ++ "\n" ++ "bb")) :=
  c10_undefined_coercion c10State 1 0 { tag := some "BIRT" } "bb" "jj" "x" "y"
    (by decide) (by decide) (by decide) (by decide)

theorem pointerShaped_ne_empty (s : String) (h : pointerShaped s = true) : s ≠ "" := by
  intro he
  subst he
  exact absurd h (by decide)

theorem resolveValueSecond_of_truthyPointer (byId : List (String × Nat))
    (v1 : Option GedcomValue) (rv : Option String)
    (h : hasTruthyPointer v1 = true) : resolveValueSecond byId v1 rv = v1 := by
  have hv : v1.isNone = false := by
    cases v1 with
    | none => exact absurd h (by decide)
    | some _ => rfl
  unfold resolveValueSecond
  simp [hv, h]

theorem resolveValueFirst_cases (byId : List (String × Nat)) (v0 : Option GedcomValue) :
    resolveValueFirst byId v0 = v0 ∨
    ∃ p r ref, v0 = some (.vPointer p r) ∧ p ≠ "" ∧ idxLookup byId p = some ref ∧
      resolveValueFirst byId v0 = some (.vPointer p (some ref)) := by
  cases v0 with
  | none => exact Or.inl rfl
  | some gv =>
    cases gv with
    | vString s => exact Or.inl rfl
    | vDate t pd pr => exact Or.inl rfl
    | vName d su => exact Or.inl rfl
    | vPointer p r =>
      by_cases hp : p = ""
      · left; simp [resolveValueFirst, hp]
      · cases hl : idxLookup byId p with
        | none => left; simp [resolveValueFirst, hp, hl]
        | some ref =>
          right
          exact ⟨p, r, ref, rfl, hp, hl, by simp [resolveValueFirst, hp, hl]⟩

theorem resolveValueSecond_cases (byId : List (String × Nat))
    (v1 : Option GedcomValue) (rv : Option String) :
    resolveValueSecond byId v1 rv = v1 ∨
    ∃ p ref, p ≠ "" ∧ idxLookup byId p = some ref ∧
      resolveValueSecond byId v1 rv = some (.vPointer p (some ref)) := by
  unfold resolveValueSecond
  by_cases h1 :
      ((v1.isNone || (jsTruthyVal v1 && !hasTruthyPointer v1)) && jsTruthyStr rv) = true
  · rw [if_pos h1]
    by_cases h2 : pointerShaped (jsTrim (rv.getD "")) = true
    · rw [if_pos h2]
      cases hl : idxLookup byId (jsTrim (rv.getD "")) with
      | none => exact Or.inl rfl
      | some ref => exact Or.inr ⟨_, ref, pointerShaped_ne_empty _ h2, hl, rfl⟩
    · rw [if_neg h2]
      exact Or.inl rfl
  · rw [if_neg h1]
    exact Or.inl rfl

theorem resolveValue_resolved (byId : List (String × Nat)) (p : String) (ref : Nat)
    (rv : Option String) (hp : p ≠ "") (hl : idxLookup byId p = some ref) :
    resolveValue byId (some (.vPointer p (some ref))) rv =
      some (.vPointer p (some ref)) := by
  unfold resolveValue
  have h1 : resolveValueFirst byId (some (.vPointer p (some ref))) =
      some (.vPointer p (some ref)) := by
    simp [resolveValueFirst, hp, hl]
  rw [h1]
  exact resolveValueSecond_of_truthyPointer byId _ rv (by simp [hasTruthyPointer, hp])

theorem resolveValue_cases (byId : List (String × Nat)) (v0 : Option GedcomValue)
    (rv : Option String) :
    resolveValue byId v0 rv = v0 ∨
    ∃ p ref, p ≠ "" ∧ idxLookup byId p = some ref ∧
      resolveValue byId v0 rv = some (.vPointer p (some ref)) := by
  unfold resolveValue
  rcases resolveValueFirst_cases byId v0 with h1 | ⟨p, r, ref, hv, hp, hl, h1⟩
  · rw [h1]
    exact resolveValueSecond_cases byId v0 rv
  · rw [h1]
    right
    refine ⟨p, ref, hp, hl, ?_⟩
    exact resolveValueSecond_of_truthyPointer byId _ rv (by simp [hasTruthyPointer, hp])

theorem resolveValue_idem (byId : List (String × Nat)) (v0 : Option GedcomValue)
    (rv : Option String) :
    resolveValue byId (resolveValue byId v0 rv) rv = resolveValue byId v0 rv := by
  rcases resolveValue_cases byId v0 rv with h | ⟨p, ref, hp, hl, h⟩
  · rw [h]
    exact h
  · rw [h]
    exact resolveValue_resolved byId p ref rv hp hl

theorem resolvePointers_length (heap : List PNode) (byId : List (String × Nat)) :
    (resolvePointers heap byId).length = heap.length := by
  simpa [resolvePointers] using mapWithIndex_length
    (fun i n => if i ∈ visitedIds heap byId then resolveStep byId n else n) 0 heap

theorem resolvePointers_childrenOf (heap : List PNode) (byId : List (String × Nat))
    (i : Nat) :
    childrenOf (resolvePointers heap byId) i = childrenOf heap i := by
  unfold childrenOf
  rw [resolvePointers_get?]
  cases heap.get? i with
  | none => rfl
  | some n => by_cases hi : i ∈ visitedIds heap byId <;> simp [hi, resolveStep]

theorem subtreeIds_congr (h h' : List PNode)
    (hc : ∀ i, childrenOf h' i = childrenOf h i) (fuel : Nat) :
    ∀ i, subtreeIds h' fuel i = subtreeIds h fuel i := by
  induction fuel with
  | zero => intro i; rfl
  | succ fuel ih =>
    intro i
    have hfun : subtreeIds h' fuel = subtreeIds h fuel := funext ih
    simp [subtreeIds, hc i, hfun]

theorem visitedIds_resolvePointers (heap : List PNode) (byId : List (String × Nat)) :
    visitedIds (resolvePointers heap byId) byId = visitedIds heap byId := by
  have hlen : (resolvePointers heap byId).length = heap.length :=
    resolvePointers_length heap byId
  have hsub := subtreeIds_congr heap (resolvePointers heap byId)
    (resolvePointers_childrenOf heap byId)
  have hfun : (fun kv : String × Nat =>
      subtreeIds (resolvePointers heap byId) (resolvePointers heap byId).length kv.2) =
      (fun kv : String × Nat => subtreeIds heap heap.length kv.2) := by
    funext kv
    rw [hlen]
    exact hsub heap.length kv.2
  unfold visitedIds
  rw [hfun]

/-- C9: the pointer-resolution pass is idempotent: running it twice on a
forest with its id index yields the forest a single run yields. -/
theorem c9_resolve_idempotent (heap : List PNode) (byId : List (String × Nat)) :
    resolvePointers (resolvePointers heap byId) byId = resolvePointers heap byId := by
  apply List.ext_get?
  intro i
  simp only [resolvePointers_get?, visitedIds_resolvePointers]
  cases h : heap.get? i with
  | none => rfl
  | some n =>
    by_cases hi : i ∈ visitedIds heap byId
    · simp only [Option.map_some', if_pos hi]
      simp [resolveStep, resolveValue_idem]
    · simp [hi]

/-- C2 (amended): within the subtree of an indexed node, a node with an
unresolved pointer value whose id is in the index gets its reference set to
the indexed node, and the pass changes no field other than the decoded
value of any node. -/
theorem c2_resolution_in_indexed_subtrees (heap : List PNode)
    (byId : List (String × Nat)) (i r : Nat) (n : PNode) (p : String)
    (hi : i ∈ visitedIds heap byId) (hn : heap.get? i = some n)
    (hv : n.value = some (.vPointer p none)) (hp : p ≠ "")
    (hr : idxLookup byId p = some r) :
    (resolvePointers heap byId).get? i =
      some { n with value := some (.vPointer p (some r)) } ∧
    ∀ k m, heap.get? k = some m →
      ∃ m', (resolvePointers heap byId).get? k = some m' ∧
        m'.tag = m.tag ∧ m'.id = m.id ∧ m'.rawValue = m.rawValue ∧
        m'.children = m.children ∧ m'.parent = m.parent := by
  constructor
  · rw [resolvePointers_get?, hn]
    have hval : resolveValue byId n.value n.rawValue = some (.vPointer p (some r)) := by
      unfold resolveValue
      have h1 : resolveValueFirst byId n.value = some (.vPointer p (some r)) := by
        rw [hv]
        simp [resolveValueFirst, hp, hr]
      rw [h1]
      exact resolveValueSecond_of_truthyPointer byId _ n.rawValue
        (by simp [hasTruthyPointer, hp])
    simp only [Option.map_some', if_pos hi, resolveStep, hval]
  · intro k m hm
    rw [resolvePointers_get?, hm]
    by_cases hk : k ∈ visitedIds heap byId
    · exact ⟨resolveStep byId m, by simp [hk], rfl, rfl, rfl, rfl, rfl⟩
    · exact ⟨m, by simp [hk], rfl, rfl, rfl, rfl, rfl⟩

/-- Witness for the amended C2 on a two-node indexed tree. -/
theorem c2_resolution_in_indexed_subtrees_witness :
    (resolvePointers c2wHeap c2wById).get? 1 =
      some { tag := some "FAMS", rawValue := some "@B@",
             value := some (.vPointer "@B@" (some 0)), parent := some 0 } ∧
    ∀ k m, c2wHeap.get? k = some m →
      ∃ m', (resolvePointers c2wHeap c2wById).get? k = some m' ∧
        m'.tag = m.tag ∧ m'.id = m.id ∧ m'.rawValue = m.rawValue ∧
        m'.children = m.children ∧ m'.parent = m.parent :=
  c2_resolution_in_indexed_subtrees c2wHeap c2wById 1 0
    { tag := some "FAMS", rawValue := some "@B@",
      value := some (.vPointer "@B@" none), parent := some 0 }
    "@B@" (by decide) (by decide) (by decide) (by decide) (by decide)

theorem resolveValueSecond_of_not_rawResolvable (byId : List (String × Nat))
    (v1 : Option GedcomValue) (rvo : Option String)
    (hraw : (jsTruthyStr rvo && pointerShaped (jsTrim (rvo.getD "")) &&
      (idxLookup byId (jsTrim (rvo.getD ""))).isSome) = false) :
    resolveValueSecond byId v1 rvo = v1 := by
  unfold resolveValueSecond
  cases ha : jsTruthyStr rvo with
  | false => simp [ha]
  | true =>
    cases hb : pointerShaped (jsTrim (rvo.getD "")) with
    | false => simp [hb]
    | true =>
      cases hc : idxLookup byId (jsTrim (rvo.getD "")) with
      | none => simp [hc]
      | some ref =>
        rw [ha, hb, hc] at hraw
        simp at hraw

/-- C3 (amended): the pass keeps the id of every truthy pointer value,
touching only its reference slot, and preserves every non-pointer decoded
value whose raw text is not a resolvable pointer shape; a non-pointer value
over resolvable pointer-shaped raw text may instead be replaced by a fresh
resolved pointer value. -/
theorem c3_value_preservation (heap : List PNode) (byId : List (String × Nat))
    (i : Nat) (n n' : PNode)
    (hn : heap.get? i = some n)
    (hres : (resolvePointers heap byId).get? i = some n') :
    (∀ p r, p ≠ "" → n.value = some (.vPointer p r) →
      ∃ r', n'.value = some (.vPointer p r')) ∧
    ((∀ p r, n.value ≠ some (.vPointer p r)) → rawResolvable byId n = false →
      n'.value = n.value) := by
  rw [resolvePointers_get?, hn] at hres
  simp only [Option.map_some'] at hres
  by_cases hi : i ∈ visitedIds heap byId
  · rw [if_pos hi] at hres
    injection hres with hres
    constructor
    · intro p r hp hv
      have hval : n'.value = resolveValue byId n.value n.rawValue := by
        rw [← hres]
        rfl
      rw [hval]
      unfold resolveValue
      rw [hv]
      cases hl : idxLookup byId p with
      | some ref =>
        have h1 : resolveValueFirst byId (some (.vPointer p r)) =
            some (.vPointer p (some ref)) := by
          simp [resolveValueFirst, hp, hl]
        rw [h1, resolveValueSecond_of_truthyPointer byId _ n.rawValue
          (by simp [hasTruthyPointer, hp])]
        exact ⟨some ref, rfl⟩
      | none =>
        have h1 : resolveValueFirst byId (some (.vPointer p r)) =
            some (.vPointer p r) := by
          simp [resolveValueFirst, hp, hl]
        rw [h1, resolveValueSecond_of_truthyPointer byId _ n.rawValue
          (by simp [hasTruthyPointer, hp])]
        exact ⟨r, rfl⟩
    · intro hnp hraw
      have hval : n'.value = resolveValue byId n.value n.rawValue := by
        rw [← hres]
        rfl
      rw [hval]
      unfold resolveValue
      have h1 : resolveValueFirst byId n.value = n.value := by
        cases hv : n.value with
        | none => rfl
        | some gv =>
          cases gv with
          | vString s => rfl
          | vDate t pd pr => rfl
          | vName d su => rfl
          | vPointer p r => exact absurd hv (hnp p r)
      rw [h1]
      unfold rawResolvable at hraw
      exact resolveValueSecond_of_not_rawResolvable byId n.value n.rawValue hraw
  · rw [if_neg hi] at hres
    injection hres with hres
    subst hres
    exact ⟨fun p r _ hv => ⟨r, hv⟩, fun _ _ => rfl⟩

/-- Witness for the amended C3 on a two-node indexed tree. -/
theorem c3_value_preservation_witness :
    (∀ p r, p ≠ "" → c3NodeBefore.value = some (.vPointer p r) →
      ∃ r', c3NodeAfter.value = some (.vPointer p r')) ∧
    ((∀ p r, c3NodeBefore.value ≠ some (.vPointer p r)) →
      rawResolvable c3ById c3NodeBefore = false →
      c3NodeAfter.value = c3NodeBefore.value) :=
  c3_value_preservation c3Heap c3ById 1 c3NodeBefore c3NodeAfter
    (by decide) (by decide)

/-- C6 (amended): in the decode pass, a visited node whose tag has no
registered decoder keeps an absent value when its raw text is absent,
becomes a pointer value holding the raw text itself (untrimmed, while the
shape test runs on the trimmed text) when the trimmed text is pointer
shaped, and becomes a string value holding the raw text unchanged
otherwise. -/
theorem c6_default_decode_rule (registry : DecoderRegistry) (heap : List PNode)
    (roots : List Nat) (i : Nat) (n : PNode)
    (hi : i ∈ decodeReach heap roots) (hn : heap.get? i = some n)
    (hd : regGet registry n.tag = none) :
    (n.rawValue = none → (applyDecoders registry heap roots).get? i = some n) ∧
    (∀ rv, n.rawValue = some rv → pointerShaped (jsTrim rv) = true →
      (applyDecoders registry heap roots).get? i =
        some { n with value := some (.vPointer rv none) }) ∧
    (∀ rv, n.rawValue = some rv → pointerShaped (jsTrim rv) = false →
      (applyDecoders registry heap roots).get? i =
        some { n with value := some (.vString rv) }) := by
  have hbase : (applyDecoders registry heap roots).get? i =
      some (decodeNode registry n) := by
    rw [applyDecoders_get?, hn]
    simp [hi]
  refine ⟨?_, ?_, ?_⟩
  · intro h0
    rw [hbase]
    simp [decodeNode, h0]
  · intro rv h0 hs
    rw [hbase]
    simp [decodeNode, h0, hd, hs]
  · intro rv h0 hs
    rw [hbase]
    simp [decodeNode, h0, hd, hs]

/-- Witness for the amended C6 on the one-node forest with untrimmed
pointer-shaped raw text. -/
theorem c6_default_decode_rule_witness :
    (c6Node.rawValue = none →
      (applyDecoders createDefaultRegistry c6Heap [0]).get? 0 = some c6Node) ∧
    (∀ rv, c6Node.rawValue = some rv → pointerShaped (jsTrim rv) = true →
      (applyDecoders createDefaultRegistry c6Heap [0]).get? 0 =
        some { c6Node with value := some (.vPointer rv none) }) ∧
    (∀ rv, c6Node.rawValue = some rv → pointerShaped (jsTrim rv) = false →
      (applyDecoders createDefaultRegistry c6Heap [0]).get? 0 =
        some { c6Node with value := some (.vString rv) }) :=
  c6_default_decode_rule createDefaultRegistry c6Heap [0] 0 c6Node
    (by decide) (by decide) rfl

/-- C8 (amended): the default registry has no decoder for the given-name or
surname sub-tags (they fall to the default pointer/string rule), while a
display-name node decodes to a name value whose display is the raw text
with every slash removed and then trimmed and whose surname is the first
slash-delimited segment; empty raw text yields an absent value. -/
theorem c8_name_decoding (heap : List PNode) (roots : List Nat) (i : Nat)
    (n : PNode) (rv : String)
    (hi : i ∈ decodeReach heap roots) (hn : heap.get? i = some n)
    (htag : n.tag = some "NAME") (hraw : n.rawValue = some rv) :
    (createDefaultRegistry "GIVN").isNone = true ∧
    (createDefaultRegistry "SURN").isNone = true ∧
    (rv ≠ "" → (applyDecoders createDefaultRegistry heap roots).get? i =
      some { n with value := some (.vName
        (String.mk (jsTrimList (rv.toList.filter (fun c => c != '/'))))
        (firstSlashPair rv.toList)) }) ∧
    (rv = "" → (applyDecoders createDefaultRegistry heap roots).get? i =
      some { n with value := none }) := by
  have hbase : (applyDecoders createDefaultRegistry heap roots).get? i =
      some (decodeNode createDefaultRegistry n) := by
    rw [applyDecoders_get?, hn]
    simp [hi]
  have hreg : regGet createDefaultRegistry n.tag = some nameDecoder := by
    rw [htag]
    rfl
  refine ⟨by decide, by decide, ?_, ?_⟩
  · intro hne
    rw [hbase]
    simp [decodeNode, hraw, hreg, nameDecoder, hne]
  · intro heq
    rw [hbase]
    simp [decodeNode, hraw, hreg, nameDecoder, heq]

/-- Witness for the amended C8 on a one-node display-name forest. -/
theorem c8_name_decoding_witness :
    (createDefaultRegistry "GIVN").isNone = true ∧
    (createDefaultRegistry "SURN").isNone = true ∧
    (("John /Doe/" : String) ≠ "" →
      (applyDecoders createDefaultRegistry c8wHeap [0]).get? 0 =
        some { c8wNode with value := some (.vName
          (String.mk (jsTrimList (("John /Doe/" : String).toList.filter
            (fun c => c != '/'))))
          (firstSlashPair ("John /Doe/" : String).toList)) }) ∧
    (("John /Doe/" : String) = "" →
      (applyDecoders createDefaultRegistry c8wHeap [0]).get? 0 =
        some { c8wNode with value := none }) :=
  c8_name_decoding c8wHeap [0] 0 c8wNode "John /Doe/"
    (by decide) (by decide) rfl rfl

theorem not_space_of_digit (ch : Char) (h : isDigitCh ch = true) :
    jsIsSpace ch = false := by
  simp only [isDigitCh, Bool.and_eq_true, decide_eq_true_eq] at h
  simp only [jsIsSpace, Bool.or_eq_false_iff, beq_eq_false_iff_ne, ne_eq,
    Bool.and_eq_false_iff, decide_eq_false_iff_not, not_le]
  omega

theorem not_space_of_upper (ch : Char) (h : isUpperAZ ch = true) :
    jsIsSpace ch = false := by
  simp only [isUpperAZ, Bool.and_eq_true, decide_eq_true_eq] at h
  simp only [jsIsSpace, Bool.or_eq_false_iff, beq_eq_false_iff_ne, ne_eq,
    Bool.and_eq_false_iff, decide_eq_false_iff_not, not_le]
  omega

theorem dateDecoder_total (s : String) (hs : s ≠ "") :
    ∃ pd pr, dateDecoder (some s) = some (.vDate (jsTrim s) pd pr) ∧
      (pd = none ↔ pr = none) := by
  simp only [dateDecoder]
  rw [if_neg hs]
  rcases h1 : matchDMY (jsTrim s).toList with _ | ⟨d, ⟨a, b, c⟩, y⟩
  · rcases h2 : matchMY (jsTrim s).toList with _ | ⟨⟨a, b, c⟩, y⟩
    · rcases h3 : matchY (jsTrim s).toList with _ | y
      · exact ⟨none, none, by simp [h1, h2, h3], by simp⟩
      · exact ⟨some (jsMakeDate y 0 1), some .year, by simp [h1, h2, h3], by simp⟩
    · rcases hm : monthNum a b c with _ | m
      · exact ⟨none, none, by simp [h1, h2, hm], by simp⟩
      · exact ⟨some (jsMakeDate y m 1), some .month, by simp [h1, h2, hm], by simp⟩
  · rcases hm : monthNum a b c with _ | m
    · exact ⟨none, none, by simp [h1, hm], by simp⟩
    · exact ⟨some (jsMakeDate y m d), some .day, by simp [h1, hm], by simp⟩

theorem dateDecoder_day_shape (d1 a b c y1 y2 y3 y4 : Char) (m : Nat)
    (hd1 : isDigitCh d1 = true) (ha : isUpperAZ a = true) (hb : isUpperAZ b = true)
    (hc : isUpperAZ c = true) (hy1 : isDigitCh y1 = true) (hy2 : isDigitCh y2 = true)
    (hy3 : isDigitCh y3 = true) (hy4 : isDigitCh y4 = true)
    (hm : monthNum a b c = some m) :
    dateDecoder (some (String.mk [d1, ' ', a, b, c, ' ', y1, y2, y3, y4])) =
      some (.vDate (String.mk [d1, ' ', a, b, c, ' ', y1, y2, y3, y4])
        (some (jsMakeDate (natOfDigits [y1, y2, y3, y4]) m (natOfDigits [d1])))
        (some .day)) := by
  have hne : String.mk [d1, ' ', a, b, c, ' ', y1, y2, y3, y4] ≠ "" := by
    simp [String.ext_iff]
  have htrim : jsTrim (String.mk [d1, ' ', a, b, c, ' ', y1, y2, y3, y4]) =
      String.mk [d1, ' ', a, b, c, ' ', y1, y2, y3, y4] := by
    unfold jsTrim jsTrimList
    simp only [show (String.mk [d1, ' ', a, b, c, ' ', y1, y2, y3, y4]).toList =
      [d1, ' ', a, b, c, ' ', y1, y2, y3, y4] from rfl]
    simp [List.dropWhile_cons, not_space_of_digit _ hd1, not_space_of_digit _ hy4]
  have hmatch : matchDMY [d1, ' ', a, b, c, ' ', y1, y2, y3, y4] =
      some (natOfDigits [d1], (a, b, c), natOfDigits [y1, y2, y3, y4]) := by
    simp [matchDMY, hd1, ha, hb, hc, hy1, hy2, hy3, hy4]
  simp only [dateDecoder]
  rw [if_neg hne, htrim]
  simp only [show (String.mk [d1, ' ', a, b, c, ' ', y1, y2, y3, y4]).toList =
    [d1, ' ', a, b, c, ' ', y1, y2, y3, y4] from rfl]
  rw [hmatch]
  simp [hm]

/-- C5 (amended): the default date decoder on absent or empty raw text
yields no value; on the specified ladder the three shapes parse with day,
month and year precision, other text keeps the trimmed text with no parsed
value and no precision; the month abbreviation must be uppercase, so the
lowercase form of the day shape is not recognized, while every uppercase
day shape with a valid month parses with day precision; and on any
non-empty text the decoder returns a date value retaining the trimmed text,
with a parsed value exactly when it has a precision. -/
theorem c5_date_decoder_ladder :
    dateDecoder none = none ∧
    dateDecoder (some "") = none ∧
    dateDecoder (some "12 MAR 1925") =
      some (.vDate "12 MAR 1925" (some ⟨1925, 2, 12⟩) (some .day)) ∧
    dateDecoder (some "MAR 1925") =
      some (.vDate "MAR 1925" (some ⟨1925, 2, 1⟩) (some .month)) ∧
    dateDecoder (some "1925") =
      some (.vDate "1925" (some ⟨1925, 0, 1⟩) (some .year)) ∧
    dateDecoder (some "ABT 1925") = some (.vDate "ABT 1925" none none) ∧
    dateDecoder (some "12 mar 1925") = some (.vDate "12 mar 1925" none none) ∧
    (∀ d1 a b c y1 y2 y3 y4 m, isDigitCh d1 = true → isUpperAZ a = true →
      isUpperAZ b = true → isUpperAZ c = true → isDigitCh y1 = true →
      isDigitCh y2 = true → isDigitCh y3 = true → isDigitCh y4 = true →
      monthNum a b c = some m →
      dateDecoder (some (String.mk [d1, ' ', a, b, c, ' ', y1, y2, y3, y4])) =
        some (.vDate (String.mk [d1, ' ', a, b, c, ' ', y1, y2, y3, y4])
          (some (jsMakeDate (natOfDigits [y1, y2, y3, y4]) m (natOfDigits [d1])))
          (some .day))) ∧
    (∀ s, s ≠ "" → ∃ pd pr, dateDecoder (some s) = some (.vDate (jsTrim s) pd pr) ∧
      (pd = none ↔ pr = none)) :=
  ⟨by decide, by decide, by decide, by decide, by decide, by decide, by decide,
    dateDecoder_day_shape, dateDecoder_total⟩

end Gedcom
